import Mathlib

/-!
Verification of the intrusive singly-linked list (`custom_links/singly_linked_list.rs`).

Shallow embedding: link addresses are natural numbers; the per-object `Link`
cell (`next: Cell<Option<NonNull<Link>>>`) becomes a total map from addresses
to `Option Nat`.  As in the source, the reserved value `some 1`
(`UNLINKED_MARKER`, a pointer to address `1`) marks an unlinked node, `none`
marks the end of a chain, and `some a` (for a valid address `a`) points to the
next link.  The adapter's value/link projection is the identity here: an
object is identified with the address of its embedded link.  Panicking paths
(`node_from_value`) are modeled by explicit result constructors that carry the
value handed back to the caller and the state at the moment of the panic,
mirroring the statement order of the source (the linked check precedes every
pointer write).
-/

namespace IntrusiveSLL

/-- `UNLINKED_MARKER`: the reserved "pointer to address 1" used by the source
to mark a link that is not a member of any list. -/
def UNLINKED_MARKER : Option Nat := some 1

/-- The link memory: each address holds the contents of that link's `next`
cell. -/
abbrev Heap := Nat → Option Nat

/-- `SinglyLinkedListOps::next`: read a link's next cell. -/
def next (h : Heap) (p : Nat) : Option Nat := h p

/-- `SinglyLinkedListOps::set_next`: write a link's next cell. -/
def set_next (h : Heap) (p : Nat) (n : Option Nat) : Heap :=
  fun q => if q = p then n else h q

/-- `Link::is_linked`: the next cell differs from the unlinked marker. -/
def is_linked (h : Heap) (p : Nat) : Bool := decide (h p ≠ UNLINKED_MARKER)

/-- `LinkOps::mark_unlinked`: reset the next cell to the unlinked marker. -/
def mark_unlinked (h : Heap) (p : Nat) : Heap := set_next h p UNLINKED_MARKER

/-- `Link::force_unlink`: forcibly reset a link to the unlinked marker
(the escape hatch for use after `fast_clear`). -/
def force_unlink (h : Heap) (p : Nat) : Heap := set_next h p UNLINKED_MARKER

/-- The free function `link_between`. -/
def link_between (h : Heap) (ptr : Nat) (prev : Option Nat) (nxt : Option Nat) : Heap :=
  let h1 := match prev with
    | some p => set_next h p (some ptr)
    | none => h
  set_next h1 ptr nxt

/-- The free function `link_after`. -/
def link_after (h : Heap) (ptr prev : Nat) : Heap :=
  link_between h ptr (some prev) (next h prev)

/-- The free function `replace_with`: splice `new` into `ptr`'s position.
As in the source, `next ptr` is read after `prev`'s next cell has been
updated. -/
def replace_with (h : Heap) (ptr : Nat) (prev : Option Nat) (new : Nat) : Heap :=
  let h1 := match prev with
    | some p => set_next h p (some new)
    | none => h
  let h2 := set_next h1 new (next h1 ptr)
  mark_unlinked h2 ptr

/-- The free function `remove`: detach `ptr` (its predecessor's next cell is
redirected when present) and mark it unlinked. -/
def remove (h : Heap) (ptr : Nat) (prev : Option Nat) : Heap :=
  let h1 := match prev with
    | some p => set_next h p (next h ptr)
    | none => h
  mark_unlinked h1 ptr

/-- The free function `splice`: attach the connected chain `[start..stop]`
between `prev` and `nxt`. -/
def splice (h : Heap) (start stop : Nat) (prev : Option Nat) (nxt : Option Nat) : Heap :=
  let h1 := set_next h stop nxt
  match prev with
  | some p => set_next h1 p (some start)
  | none => h1

/-- The state a `CursorMut` operates on: the link memory, the list root's
head, and the cursor's current position (`none` is the `Null` position). -/
structure CursorSt where
  heap : Heap
  head : Option Nat
  current : Option Nat

/-- The successor of the cursor's position: `next current` when at an
element, the list head when at `Null`.  This is the `next` computation that
opens `remove_next`, `replace_next_with` and `splice_after`. -/
def cursorNext (s : CursorSt) : Option Nat :=
  match s.current with
  | some c => next s.heap c
  | none => s.head

/-- `SinglyLinkedList::node_from_value`: convert an owned value to a link
address; if the link already reports linked, ownership is reconstructed
(`Except.error val`) and the caller panics. -/
def node_from_value (h : Heap) (val : Nat) : Except Nat Nat :=
  if is_linked h val then Except.error val else Except.ok val

/-- Result of `CursorMut::insert_after`.  `panicked r t` records the value
`r` whose ownership was reconstructed before the panic and the state `t` of
the list at the moment of the panic. -/
inductive InsertResult
  | panicked (returned : Nat) (state : CursorSt)
  | ok (state : CursorSt)

/-- `CursorMut::insert_after`. -/
def insert_after (s : CursorSt) (val : Nat) : InsertResult :=
  match node_from_value s.heap val with
  | Except.error v => InsertResult.panicked v s
  | Except.ok new =>
    match s.current with
    | some current =>
        InsertResult.ok { s with heap := link_after s.heap new current }
    | none =>
        InsertResult.ok
          { s with heap := link_between s.heap new none s.head, head := some new }

/-- `CursorMut::remove_next`: the removed link address (if any) and the
resulting state.  The head is updated (read before the removal, as in the
source) when the cursor is at `Null`. -/
def remove_next (s : CursorSt) : Option Nat × CursorSt :=
  match cursorNext s with
  | none => (none, s)
  | some nxt =>
    let newHead := if s.current.isNone then next s.heap nxt else s.head
    (some nxt, { s with heap := remove s.heap nxt s.current, head := newHead })

/-- Result of `CursorMut::replace_next_with`: `ok removed t` is `Ok` with the
displaced element, `err r t` is `Err(val)` (no successor), `panicked r t` is
the already-linked panic with the reconstructed value and panic-time state. -/
inductive ReplaceResult
  | panicked (returned : Nat) (state : CursorSt)
  | err (returned : Nat) (state : CursorSt)
  | ok (removed : Nat) (state : CursorSt)

/-- `CursorMut::replace_next_with`.  The already-linked check
(`node_from_value`) is reached only when a successor exists. -/
def replace_next_with (s : CursorSt) (val : Nat) : ReplaceResult :=
  match cursorNext s with
  | some nxt =>
    match node_from_value s.heap val with
    | Except.error v => ReplaceResult.panicked v s
    | Except.ok new =>
      let newHead := if s.current.isNone then some new else s.head
      ReplaceResult.ok nxt
        { s with heap := replace_with s.heap nxt s.current new, head := newHead }
  | none => ReplaceResult.err val s

/-- The tail-finding `while` loop of `splice_after`, with explicit fuel
(`none` = fuel exhausted, which cannot happen on a well-formed finite
chain). -/
def tailFrom (h : Heap) : Nat → Nat → Option Nat
  | 0, p =>
    match next h p with
    | none => some p
    | some _ => none
  | fuel + 1, p =>
    match next h p with
    | none => some p
    | some x => tailFrom h fuel x

/-- `CursorMut::splice_after`: returns the resulting cursor state together
with the other list's head afterwards (always `none`: the source ends with
`list.head = None`). -/
def splice_after (s : CursorSt) (otherHead : Option Nat) (fuel : Nat) :
    Option (CursorSt × Option Nat) :=
  match otherHead with
  | none => some (s, none)
  | some hd =>
    match cursorNext s with
    | some nxt =>
      match tailFrom s.heap fuel hd with
      | none => none
      | some tl =>
        let newHead := if s.current.isNone then some hd else s.head
        some ({ s with heap := splice s.heap hd tl s.current (some nxt), head := newHead },
          none)
    | none =>
      match s.current with
      | some current =>
          some ({ s with heap := set_next s.heap current (some hd) }, none)
      | none => some ({ s with head := some hd }, none)

/-- `CursorMut::split_after`: the resulting cursor state for the original
list and the head of the returned new list.  The new head is read before the
cut, as in the source. -/
def split_after (s : CursorSt) : CursorSt × Option Nat :=
  match s.current with
  | some current =>
    ({ s with heap := set_next s.heap current none }, next s.heap current)
  | none => ({ s with head := none }, s.head)

/-- `SinglyLinkedList::cursor_mut`: a cursor at the `Null` position. -/
def cursor_mut (h : Heap) (hd : Option Nat) : CursorSt := ⟨h, hd, none⟩

/-- `Cursor::move_next`. -/
def move_next (s : CursorSt) : CursorSt :=
  match s.current with
  | some c => { s with current := next s.heap c }
  | none => { s with current := s.head }

/-- `SinglyLinkedList::front`: a null cursor advanced once. -/
def front (h : Heap) (hd : Option Nat) : CursorSt :=
  move_next (cursor_mut h hd)

/-- `Cursor::is_null`. -/
def is_null (s : CursorSt) : Bool := s.current.isNone

/-- `SinglyLinkedList::is_empty`. -/
def is_empty (hd : Option Nat) : Bool := hd.isNone

/-- `SinglyLinkedList::push_front`: `insert_after` on a fresh null cursor. -/
def push_front (h : Heap) (hd : Option Nat) (val : Nat) : InsertResult :=
  insert_after (cursor_mut h hd) val

/-- `SinglyLinkedList::pop_front`: `remove_next` on a fresh null cursor. -/
def pop_front (h : Heap) (hd : Option Nat) : Option Nat × CursorSt :=
  remove_next (cursor_mut h hd)

/-- The walking loop of `SinglyLinkedList::clear`: mark each node unlinked
(its next cell is read before the mark, as in the source), with fuel. -/
def clearLoop (h : Heap) : Nat → Option Nat → Option Heap
  | _, none => some h
  | 0, some _ => none
  | fuel + 1, some x => clearLoop (mark_unlinked h x) fuel (next h x)

/-- `SinglyLinkedList::clear`: head is set to `none`, then the old chain is
walked and every node marked unlinked. -/
def clear (h : Heap) (hd : Option Nat) (fuel : Nat) : Option (Heap × Option Nat) :=
  (clearLoop h fuel hd).map (fun h2 => (h2, none))

/-- `SinglyLinkedList::fast_clear`: forget the head only; the link memory is
untouched. -/
def fast_clear (h : Heap) (_hd : Option Nat) : Heap × Option Nat := (h, none)

/-- `seg h fr l q`: starting from the pointer value `fr`, the chain traverses
exactly the addresses of `l` and the last node's next cell holds `q`
(for `l = []` this means `fr = q`). -/
def seg (h : Heap) : Option Nat → List Nat → Option Nat → Bool
  | fr, [], q => fr == q
  | fr, x :: xs, q => fr == some x && seg h (next h x) xs q

/-- A list root with head `hd` holds exactly the elements of `l`, in order. -/
def isChain (h : Heap) (hd : Option Nat) (l : List Nat) : Bool := seg h hd l none

/-- The pointer value that must point at the front of the chain `l`
terminated by `q`. -/
def segFront (l : List Nat) (q : Option Nat) : Option Nat :=
  match l with
  | [] => q
  | x :: _ => some x

/-- The iterator `Iter`: collect the chain's addresses, with fuel. -/
def toListFuel (h : Heap) : Nat → Option Nat → Option (List Nat)
  | _, none => some []
  | 0, some _ => none
  | fuel + 1, some x => (toListFuel h fuel (next h x)).map (fun l => x :: l)

/-- The test scenario's object valued `v` lives at address `v + 1`
(address `1` is reserved for the unlinked marker). -/
def objVal (a : Nat) : Nat := a - 1

/-- The all-unlinked initial link memory. -/
def h0 : Heap := fun _ => UNLINKED_MARKER

/-- A concrete link memory holding the chain 2 → 3 → 4 (every other link
unlinked), used by the concrete witnesses. -/
def hW : Heap := fun p =>
  if p = 2 then some 3
  else if p = 3 then some 4
  else if p = 4 then none
  else UNLINKED_MARKER

/-- A concrete link memory holding two disjoint chains 2 → 3 and 5 → 6,
used by the splice witness. -/
def hW2 : Heap := fun p =>
  if p = 2 then some 3
  else if p = 3 then none
  else if p = 5 then some 6
  else if p = 6 then none
  else UNLINKED_MARKER

/-- Run `insert_after` and keep the state, `none` on panic (used to chain the
concrete scenario). -/
def insertOk (s : CursorSt) (a : Nat) : Option CursorSt :=
  match insert_after s a with
  | InsertResult.ok t => some t
  | InsertResult.panicked _ _ => none

/-- The spec's concrete scenario: four `insert_after` calls at `Null` with
objects valued 4, 3, 2, 1, then `split_after` at the 2nd element, then
`splice_after` re-attaching at the 1st element.  Returns the traversal value
sequences (after inserts; both halves after split; after splice). -/
def scenario : Option (List Nat × List Nat × List Nat × List Nat) := do
  let s0 : CursorSt := ⟨h0, none, none⟩
  let s1 ← insertOk s0 5
  let s2 ← insertOk s1 4
  let s3 ← insertOk s2 3
  let s4 ← insertOk s3 2
  let all ← toListFuel s4.heap 10 s4.head
  let curSplit : CursorSt := ⟨s4.heap, s4.head, some 3⟩
  let sp := split_after curSplit
  let left ← toListFuel sp.1.heap 10 sp.1.head
  let right ← toListFuel sp.1.heap 10 sp.2
  let curSplice : CursorSt := ⟨sp.1.heap, sp.1.head, some 2⟩
  let (sf, _) ← splice_after curSplice sp.2 10
  let final ← toListFuel sf.heap 10 sf.head
  pure (all.map objVal, left.map objVal, right.map objVal, final.map objVal)

/-- Claim C1: starting from an empty list with a null cursor, inserting
objects valued 4, 3, 2, 1 yields traversal [1,2,3,4]; `split_after` at the
2nd element yields [1,2] and [3,4]; `splice_after` re-attaching [3,4] at the
1st element of [1,2] yields [1,3,4,2]. -/
theorem scenario_insert_split_splice :
    scenario = some ([1, 2, 3, 4], [1, 2], [3, 4], [1, 3, 4, 2]) := by
  decide

lemma segFront_cons (x : Nat) (xs : List Nat) (q : Option Nat) :
    segFront (x :: xs) q = some x := rfl

lemma segFront_nil (q : Option Nat) : segFront [] q = q := rfl

lemma segFront_ne {l : List Nat} (hne : l ≠ []) (q q2 : Option Nat) :
    segFront l q = segFront l q2 := by
  cases l with
  | nil => exact absurd rfl hne
  | cons => rfl

lemma seg_first {h : Heap} {fr : Option Nat} {l : List Nat} {q : Option Nat}
    (hs : seg h fr l q = true) : fr = segFront l q := by
  cases l with
  | nil => simpa [seg, segFront] using hs
  | cons x xs =>
    simp only [seg, Bool.and_eq_true, beq_iff_eq] at hs
    simpa [segFront] using hs.1

lemma seg_append (h : Heap) (fr q : Option Nat) (l1 l2 : List Nat) :
    seg h fr (l1 ++ l2) q
      = (seg h fr l1 (segFront l2 q) && seg h (segFront l2 q) l2 q) := by
  induction l1 generalizing fr with
  | nil =>
    cases l2 with
    | nil => simp [seg, segFront]
    | cons y ys => simp [seg, segFront]
  | cons x xs ih =>
    simp [seg, ih, Bool.and_assoc]

lemma seg_set_next_frame {x : Nat} {l : List Nat} (h : Heap) (v : Option Nat)
    (fr q : Option Nat) (hx : x ∉ l) :
    seg (set_next h x v) fr l q = seg h fr l q := by
  induction l generalizing fr with
  | nil => rfl
  | cons y ys ih =>
    have hxy : y ≠ x := by rintro rfl; exact hx (List.mem_cons_self _ _)
    have hxs : x ∉ ys := fun hm => hx (List.mem_cons_of_mem _ hm)
    have hnext : next (set_next h x v) y = next h y := by
      simp [next, set_next, hxy]
    simp only [seg]
    rw [hnext, ih (next h y) hxs]

lemma seg_retarget {h : Heap} {fr : Option Nat} {l' : List Nat} {t : Nat}
    {q : Option Nat} (v : Option Nat) (hnd : (l' ++ [t]).Nodup)
    (hs : seg h fr (l' ++ [t]) q = true) :
    seg (set_next h t v) fr (l' ++ [t]) v = true := by
  have ht : t ∉ l' := by
    simp only [List.nodup_append, List.nodup_cons] at hnd
    intro hm
    exact hnd.2.2 hm (List.mem_singleton_self t)
  rw [seg_append] at hs ⊢
  simp only [Bool.and_eq_true] at hs
  rw [seg_set_next_frame h v _ _ ht, Bool.and_eq_true]
  refine ⟨?_, ?_⟩
  · simpa [segFront] using hs.1
  · simp [seg, segFront, next, set_next]

lemma chain_cursor_next (s : CursorSt) (pre post : List Nat)
    (hc : isChain s.heap s.head (pre ++ post) = true)
    (hcur : s.current = pre.getLast?) :
    cursorNext s = segFront post none := by
  rcases pre.eq_nil_or_concat' with rfl | ⟨L, c, rfl⟩
  · simp only [List.getLast?_nil] at hcur
    simp only [List.nil_append] at hc
    rw [cursorNext, hcur]
    exact seg_first hc
  · rw [List.getLast?_concat] at hcur
    rw [isChain, List.append_assoc, seg_append, seg_append] at hc
    simp only [List.singleton_append, segFront, seg, Bool.and_eq_true,
      beq_iff_eq] at hc
    rw [cursorNext, hcur]
    simpa [segFront] using hc.2.1

lemma segFront_append (l1 l2 : List Nat) (q : Option Nat) :
    segFront (l1 ++ l2) q = segFront l1 (segFront l2 q) := by
  cases l1 <;> rfl

lemma chain_concat_decomp {h : Heap} {hd : Option Nat} {L : List Nat} {c : Nat}
    {post : List Nat} (hc : isChain h hd ((L ++ [c]) ++ post) = true) :
    seg h hd L (some c) = true
    ∧ next h c = segFront post none
    ∧ seg h (segFront post none) post none = true := by
  rw [isChain, List.append_assoc, seg_append, seg_append] at hc
  simp only [List.singleton_append, segFront_cons] at hc
  rw [Bool.and_eq_true, Bool.and_eq_true] at hc
  refine ⟨hc.1, ?_, hc.2.2⟩
  have h2 := hc.2.1
  simp only [seg, Bool.and_eq_true, beq_iff_eq, eq_self_iff_true, true_and] at h2
  exact h2

lemma chain_concat_build {h : Heap} {hd : Option Nat} {L : List Nat} {c : Nat}
    {post : List Nat}
    (h1 : seg h hd L (some c) = true)
    (h2 : next h c = segFront post none)
    (h3 : seg h (segFront post none) post none = true) :
    isChain h hd ((L ++ [c]) ++ post) = true := by
  rw [isChain, List.append_assoc, seg_append, seg_append]
  simp only [List.singleton_append, segFront_cons]
  rw [Bool.and_eq_true, Bool.and_eq_true]
  refine ⟨h1, ?_, h3⟩
  simp [seg, h2]

/-- Claim C2: `insert_after` fails fatally exactly when the object's link
already reports linked, handing the object's ownership back (state untouched
at the panic); the other empty/tail conditions (`remove_next` with no
successor, `replace_next_with` at the tail, `front` on an empty list) return
empty or input-echoing results and are never fatal. -/
theorem failure_semantics_spec (s : CursorSt) (val : Nat) :
    ((∃ r t, insert_after s val = InsertResult.panicked r t)
        ↔ is_linked s.heap val = true)
    ∧ (is_linked s.heap val = true
        → insert_after s val = InsertResult.panicked val s)
    ∧ (cursorNext s = none → remove_next s = (none, s))
    ∧ (cursorNext s = none → replace_next_with s val = ReplaceResult.err val s)
    ∧ is_null (front s.heap none) = true := by
  refine ⟨⟨?_, ?_⟩, ?_, ?_, ?_, ?_⟩
  · rintro ⟨r, t, hp⟩
    by_contra hnl
    rw [Bool.not_eq_true] at hnl
    rw [insert_after, node_from_value, hnl,
      if_neg (fun hcontra => Bool.noConfusion hcontra)] at hp
    cases hcur : s.current <;> rw [hcur] at hp <;> exact InsertResult.noConfusion hp
  · intro hl
    rw [insert_after, node_from_value, hl]
    exact ⟨val, s, rfl⟩
  · intro hl
    rw [insert_after, node_from_value, hl]
    rfl
  · intro hn
    rw [remove_next, hn]
  · intro hn
    rw [replace_next_with, hn]
  · rfl

/-- Claim C2 witness: a concrete already-linked insertion panics and hands
the value back, and the tail conditions echo, at the empty list. -/
theorem failure_semantics_spec_witness :
    ((∃ r t, insert_after ⟨hW, some 2, none⟩ 3 = InsertResult.panicked r t)
        ↔ is_linked hW 3 = true)
    ∧ (is_linked hW 3 = true
        → insert_after ⟨hW, some 2, none⟩ 3
            = InsertResult.panicked 3 ⟨hW, some 2, none⟩)
    ∧ (cursorNext ⟨hW, some 2, none⟩ = none
        → remove_next ⟨hW, some 2, none⟩ = (none, ⟨hW, some 2, none⟩))
    ∧ (cursorNext ⟨hW, some 2, none⟩ = none
        → replace_next_with ⟨hW, some 2, none⟩ 3
            = ReplaceResult.err 3 ⟨hW, some 2, none⟩)
    ∧ is_null (front hW none) = true :=
  failure_semantics_spec ⟨hW, some 2, none⟩ 3

/-- Claim C3: `push_front x` followed by `pop_front` returns exactly `x` and
restores the heap and head to their values before the push, for every list
state and every unlinked `x`. -/
theorem push_pop_roundtrip (h : Heap) (hd : Option Nat) (x : Nat)
    (hx : is_linked h x = false) :
    push_front h hd x = InsertResult.ok ⟨set_next h x hd, some x, none⟩
    ∧ pop_front (set_next h x hd) (some x) = (some x, ⟨h, hd, none⟩) := by
  have hxm : h x = UNLINKED_MARKER := by
    have := of_decide_eq_false hx
    simpa using this
  constructor
  · rw [push_front, cursor_mut, insert_after, node_from_value, hx]
    rfl
  · rw [pop_front, cursor_mut, remove_next]
    have hcn : cursorNext ⟨set_next h x hd, some x, none⟩ = some x := rfl
    rw [hcn]
    have hheap : remove (set_next h x hd) x none = h := by
      funext q
      by_cases hq : q = x
      · subst hq
        simp [remove, mark_unlinked, set_next, hxm]
      · simp [remove, mark_unlinked, set_next, hq]
    have hhd : next (set_next h x hd) x = hd := by simp [next, set_next]
    simp only [Option.isNone_none, if_pos, hheap, hhd]

/-- Claim C3 witness: pushing the unlinked object at address 2 onto the empty
list and popping returns it and restores the empty list. -/
theorem push_pop_roundtrip_witness :
    is_linked h0 2 = false
    ∧ (push_front h0 none 2 = InsertResult.ok ⟨set_next h0 2 none, some 2, none⟩
        ∧ pop_front (set_next h0 2 none) (some 2) = (some 2, ⟨h0, none, none⟩)) :=
  ⟨by decide, push_pop_roundtrip h0 none 2 (by decide)⟩

/-- Claim C9: when `insert_after` or `replace_next_with` raises the fatal
already-linked error, the state at the panic — the list head and every link's
next cell — is exactly the state before the call, and the rejected value is
handed back: the already-linked check precedes every pointer write. -/
theorem mutating_atomic_spec (s : CursorSt) (val n : Nat)
    (hl : is_linked s.heap val = true) (hn : cursorNext s = some n) :
    insert_after s val = InsertResult.panicked val s
    ∧ replace_next_with s val = ReplaceResult.panicked val s := by
  constructor
  · rw [insert_after, node_from_value, hl]
    rfl
  · rw [replace_next_with, hn, node_from_value, hl]
    rfl

/-- Claim C9 witness: at a singleton list whose element is re-inserted, both
panicking operations hand back the value with the state untouched. -/
theorem mutating_atomic_spec_witness :
    is_linked hW 2 = true ∧ cursorNext ⟨hW, some 2, none⟩ = some 2
    ∧ (insert_after ⟨hW, some 2, none⟩ 2
          = InsertResult.panicked 2 ⟨hW, some 2, none⟩
        ∧ replace_next_with ⟨hW, some 2, none⟩ 2
          = ReplaceResult.panicked 2 ⟨hW, some 2, none⟩) :=
  ⟨by decide, by decide, mutating_atomic_spec ⟨hW, some 2, none⟩ 2 2 (by decide) (by decide)⟩

/-- Claim C10: at the true tail (no successor), `replace_next_with` returns
`Err(val)` with the state untouched even when `val`'s link already reports
linked — the already-linked check sits inside the successor branch, so the
linked input is handed back still linked rather than rejected fatally. -/
theorem replace_at_tail_linked_spec (s : CursorSt) (val : Nat)
    (hn : cursorNext s = none) (hl : is_linked s.heap val = true) :
    replace_next_with s val = ReplaceResult.err val s
    ∧ is_linked s.heap val = true := by
  refine ⟨?_, hl⟩
  rw [replace_next_with, hn]

/-- Claim C10 witness: a cursor on the last element of a singleton list hands
back an already-linked value as `Err` without panicking. -/
theorem replace_at_tail_linked_spec_witness :
    cursorNext ⟨hW, some 2, some 4⟩ = none ∧ is_linked hW 3 = true
    ∧ (replace_next_with ⟨hW, some 2, some 4⟩ 3
          = ReplaceResult.err 3 ⟨hW, some 2, some 4⟩
        ∧ is_linked hW 3 = true) :=
  ⟨by decide, by decide,
    replace_at_tail_linked_spec ⟨hW, some 2, some 4⟩ 3 (by decide) (by decide)⟩

/-- Claim C4: `remove_next` is a no-op returning nothing when the cursor has
no successor; otherwise it detaches the successor (the head is updated when
the cursor is at `Null`), marks the removed link unlinked, returns it, and
leaves the cursor position unmoved. -/
theorem remove_next_spec (s : CursorSt) (pre post : List Nat) (n : Nat)
    (hnd : (pre ++ n :: post).Nodup)
    (hc : isChain s.heap s.head (pre ++ n :: post) = true)
    (hcur : s.current = pre.getLast?) :
    (∀ t : CursorSt, cursorNext t = none → remove_next t = (none, t))
    ∧ (remove_next s).1 = some n
    ∧ (remove_next s).2.current = s.current
    ∧ is_linked (remove_next s).2.heap n = false
    ∧ isChain (remove_next s).2.heap (remove_next s).2.head (pre ++ post) = true := by
  have hnext : cursorNext s = some n := by
    have hcn := chain_cursor_next s pre (n :: post) hc hcur
    simpa [segFront] using hcn
  refine ⟨fun t hn => by rw [remove_next, hn], ?_, ?_, ?_, ?_⟩ <;>
    rcases pre.eq_nil_or_concat' with rfl | ⟨L, c, rfl⟩
  · rw [remove_next, hnext]
  · rw [remove_next, hnext]
  · rw [remove_next, hnext]
  · rw [remove_next, hnext]
  · simp only [List.getLast?_nil] at hcur
    rw [remove_next, hnext]
    simp [hcur, remove, mark_unlinked, is_linked, set_next, UNLINKED_MARKER]
  · rw [List.getLast?_concat] at hcur
    rw [remove_next, hnext]
    have hcn' : c ≠ n := by
      rw [List.nodup_append] at hnd
      intro hce
      exact hnd.2.2 (List.mem_append_right L (List.mem_singleton_self c))
        (by rw [hce]; exact List.mem_cons_self n post)
    simp [hcur, remove, mark_unlinked, is_linked, set_next, UNLINKED_MARKER]
  · simp only [List.getLast?_nil] at hcur
    rw [isChain, List.nil_append] at hc
    simp only [seg, Bool.and_eq_true, beq_iff_eq] at hc
    obtain ⟨hhd, hpost⟩ := hc
    have hnp : n ∉ post := by
      rw [List.nil_append, List.nodup_cons] at hnd
      exact hnd.1
    rw [remove_next, hnext]
    simp only [hcur, Option.isNone_none, if_true, List.nil_append]
    rw [isChain]
    show seg (remove s.heap n none) (next s.heap n) post none = true
    rw [remove, mark_unlinked]
    rw [seg_set_next_frame _ _ _ _ hnp]
    exact hpost
  · rw [List.getLast?_concat] at hcur
    rw [List.nodup_append] at hnd
    obtain ⟨hndLC, hndNP, hdisj⟩ := hnd
    have hcL : c ∉ L := by
      rw [List.nodup_append] at hndLC
      exact fun hm => hndLC.2.2 hm (List.mem_singleton_self c)
    have hnL : n ∉ L := fun hm =>
      hdisj (List.mem_append_left [c] hm) (List.mem_cons_self n post)
    have hcNP : c ∉ n :: post :=
      fun hm => hdisj (List.mem_append_right L (List.mem_singleton_self c)) hm
    have hcn' : c ≠ n := fun hce => hcNP (by rw [hce]; exact List.mem_cons_self n post)
    have hcP : c ∉ post := fun hm => hcNP (List.mem_cons_of_mem n hm)
    have hnP : n ∉ post := by
      rw [List.nodup_cons] at hndNP
      exact hndNP.1
    rw [isChain, List.append_assoc, seg_append, seg_append] at hc
    simp only [List.singleton_append, segFront, seg, Bool.and_eq_true,
      beq_iff_eq] at hc
    obtain ⟨hA, hcnext, -, hpost⟩ := hc
    have hfirst : next s.heap n = segFront post none := seg_first hpost
    rw [remove_next, hnext]
    simp only [hcur, Option.isNone_some, Bool.false_eq_true, if_false]
    rw [isChain, List.append_assoc, seg_append, seg_append]
    simp only [List.singleton_append, segFront_cons, seg, Bool.and_eq_true,
      beq_iff_eq, eq_self_iff_true, true_and]
    rw [remove, mark_unlinked]
    refine ⟨?_, ?_, ?_⟩
    · rw [seg_set_next_frame _ _ _ _ hnL, seg_set_next_frame _ _ _ _ hcL]
      exact hA
    · have hfirst' : s.heap n = segFront post none := hfirst
      simp [next, set_next, hcn', hfirst']
    · rw [seg_set_next_frame _ _ _ _ hnP, seg_set_next_frame _ _ _ _ hcP]
      rw [← hfirst]
      exact hpost

/-- Claim C4 witness: removing after the first element of the chain
2 → 3 → 4 returns 3, marks it unlinked, and leaves the chain 2 → 4. -/
theorem remove_next_spec_witness :
    ([2] ++ 3 :: [4] : List Nat).Nodup
    ∧ isChain hW (some 2) ([2] ++ 3 :: [4]) = true
    ∧ (⟨hW, some 2, some 2⟩ : CursorSt).current = [2].getLast?
    ∧ ((∀ t : CursorSt, cursorNext t = none → remove_next t = (none, t))
        ∧ (remove_next ⟨hW, some 2, some 2⟩).1 = some 3
        ∧ (remove_next ⟨hW, some 2, some 2⟩).2.current
            = (⟨hW, some 2, some 2⟩ : CursorSt).current
        ∧ is_linked (remove_next ⟨hW, some 2, some 2⟩).2.heap 3 = false
        ∧ isChain (remove_next ⟨hW, some 2, some 2⟩).2.heap
            (remove_next ⟨hW, some 2, some 2⟩).2.head ([2] ++ [4]) = true) :=
  ⟨by decide, by decide, by decide,
    remove_next_spec ⟨hW, some 2, some 2⟩ [2] [4] 3 (by decide) (by decide) (by decide)⟩

/-- Claim C5: with no successor, `replace_next_with` is a no-op handing the
input back unchanged as `Err`; with a successor it splices the new object
into the successor's position (updating the head when the cursor is at
`Null`), marks the displaced element unlinked, and returns it. -/
theorem replace_next_with_spec (s : CursorSt) (val : Nat) (pre post : List Nat)
    (n : Nat) (hnd : (pre ++ n :: post).Nodup)
    (hc : isChain s.heap s.head (pre ++ n :: post) = true)
    (hcur : s.current = pre.getLast?)
    (hval : is_linked s.heap val = false)
    (hvmem : val ∉ pre ++ n :: post) :
    (∀ (t : CursorSt) (v : Nat), cursorNext t = none
        → replace_next_with t v = ReplaceResult.err v t)
    ∧ ∃ s2, replace_next_with s val = ReplaceResult.ok n s2
        ∧ s2.current = s.current
        ∧ is_linked s2.heap n = false
        ∧ isChain s2.heap s2.head (pre ++ val :: post) = true := by
  have hnext : cursorNext s = some n := by
    have hcn := chain_cursor_next s pre (n :: post) hc hcur
    simpa [segFront] using hcn
  refine ⟨fun t v hn => by rw [replace_next_with, hn], ?_⟩
  rw [replace_next_with, hnext, node_from_value, hval,
    if_neg (fun hcontra => Bool.noConfusion hcontra)]
  rcases pre.eq_nil_or_concat' with rfl | ⟨L, c, rfl⟩
  · simp only [List.getLast?_nil] at hcur
    rw [isChain, List.nil_append] at hc
    simp only [seg, Bool.and_eq_true, beq_iff_eq] at hc
    obtain ⟨hhd, hpost⟩ := hc
    have hfirst : next s.heap n = segFront post none := seg_first hpost
    have hfirst2 : s.heap n = segFront post none := hfirst
    have hnp : n ∉ post := by
      rw [List.nil_append, List.nodup_cons] at hnd
      exact hnd.1
    have hvn : val ≠ n := by
      rw [List.nil_append] at hvmem
      exact fun hve => hvmem (by rw [hve]; exact List.mem_cons_self n post)
    have hvP : val ∉ post := by
      rw [List.nil_append] at hvmem
      exact fun hm => hvmem (List.mem_cons_of_mem n hm)
    rw [hcur]
    refine ⟨⟨set_next (set_next s.heap val (next s.heap n)) n UNLINKED_MARKER,
      some val, none⟩, rfl, rfl, ?_, ?_⟩
    · simp [is_linked, set_next, UNLINKED_MARKER]
    · rw [List.nil_append, isChain]
      simp only [seg, Bool.and_eq_true, beq_iff_eq]
      refine ⟨trivial, ?_⟩
      have hnv : next (set_next (set_next s.heap val (next s.heap n)) n
          UNLINKED_MARKER) val = segFront post none := by
        simp [next, set_next, hvn, hfirst2]
      rw [hnv]
      rw [seg_set_next_frame _ _ _ _ hnp, seg_set_next_frame _ _ _ _ hvP]
      rw [← hfirst]
      exact hpost
  · rw [List.getLast?_concat] at hcur
    rw [List.nodup_append] at hnd
    obtain ⟨hndLC, hndNP, hdisj⟩ := hnd
    have hcL : c ∉ L := by
      rw [List.nodup_append] at hndLC
      exact fun hm => hndLC.2.2 hm (List.mem_singleton_self c)
    have hnL : n ∉ L := fun hm =>
      hdisj (List.mem_append_left [c] hm) (List.mem_cons_self n post)
    have hcNP : c ∉ n :: post :=
      fun hm => hdisj (List.mem_append_right L (List.mem_singleton_self c)) hm
    have hcn' : c ≠ n := fun hce => hcNP (by rw [hce]; exact List.mem_cons_self n post)
    have hnc : n ≠ c := fun hne => hcn' hne.symm
    have hcP : c ∉ post := fun hm => hcNP (List.mem_cons_of_mem n hm)
    have hnP : n ∉ post := by
      rw [List.nodup_cons] at hndNP
      exact hndNP.1
    have hvL : val ∉ L := fun hm =>
      hvmem (List.mem_append_left _ (List.mem_append_left _ hm))
    have hvc : val ≠ c := fun hve => hvmem (List.mem_append_left _
      (List.mem_append_right _ (by rw [hve]; exact List.mem_singleton_self c)))
    have hcv : c ≠ val := fun hce => hvc hce.symm
    have hvn : val ≠ n := fun hve =>
      hvmem (List.mem_append_right _ (by rw [hve]; exact List.mem_cons_self n post))
    have hvP : val ∉ post := fun hm =>
      hvmem (List.mem_append_right _ (List.mem_cons_of_mem n hm))
    rw [isChain, List.append_assoc, seg_append, seg_append] at hc
    simp only [List.singleton_append, segFront, seg, Bool.and_eq_true,
      beq_iff_eq] at hc
    obtain ⟨hA, hcnext, -, hpost⟩ := hc
    have hfirst : next s.heap n = segFront post none := seg_first hpost
    have hfirst2 : s.heap n = segFront post none := hfirst
    rw [hcur]
    refine ⟨⟨set_next (set_next (set_next s.heap c (some val)) val
      (next (set_next s.heap c (some val)) n)) n UNLINKED_MARKER,
      s.head, some c⟩, rfl, rfl, ?_, ?_⟩
    · simp [is_linked, set_next, UNLINKED_MARKER]
    · rw [isChain, List.append_assoc, seg_append, seg_append]
      simp only [List.singleton_append, segFront_cons, seg, Bool.and_eq_true,
        beq_iff_eq, eq_self_iff_true, true_and]
      refine ⟨?_, ?_, ?_⟩
      · rw [seg_set_next_frame _ _ _ _ hnL, seg_set_next_frame _ _ _ _ hvL,
          seg_set_next_frame _ _ _ _ hcL]
        exact hA
      · simp [next, set_next, hcn', hcv]
      · have hHval : next (set_next (set_next (set_next s.heap c (some val)) val
            (next (set_next s.heap c (some val)) n)) n UNLINKED_MARKER) val
            = segFront post none := by
          simp [next, set_next, hvn, hnc, hfirst2]
        rw [hHval]
        rw [seg_set_next_frame _ _ _ _ hnP, seg_set_next_frame _ _ _ _ hvP,
          seg_set_next_frame _ _ _ _ hcP]
        rw [← hfirst]
        exact hpost

/-- Claim C5 witness: replacing after the first element of 2 → 3 → 4 with the
unlinked object 6 displaces 3 and yields the chain 2 → 6 → 4. -/
theorem replace_next_with_spec_witness :
    ([2] ++ 3 :: [4] : List Nat).Nodup
    ∧ isChain hW (some 2) ([2] ++ 3 :: [4]) = true
    ∧ (⟨hW, some 2, some 2⟩ : CursorSt).current = [2].getLast?
    ∧ is_linked hW 6 = false
    ∧ (6 : Nat) ∉ ([2] ++ 3 :: [4] : List Nat)
    ∧ ((∀ (t : CursorSt) (v : Nat), cursorNext t = none
          → replace_next_with t v = ReplaceResult.err v t)
        ∧ ∃ s2, replace_next_with ⟨hW, some 2, some 2⟩ 6 = ReplaceResult.ok 3 s2
            ∧ s2.current = (⟨hW, some 2, some 2⟩ : CursorSt).current
            ∧ is_linked s2.heap 3 = false
            ∧ isChain s2.heap s2.head ([2] ++ 6 :: [4]) = true) :=
  ⟨by decide, by decide, by decide, by decide, by decide,
    replace_next_with_spec ⟨hW, some 2, some 2⟩ 6 [2] [4] 3
      (by decide) (by decide) (by decide) (by decide) (by decide)⟩

/-- Claim C6: `split_after` returns a new list root holding exactly the
elements after the current position in their original order (all elements
when the cursor is at `Null`), the original list retains exactly the
elements up to and including the current position, and the element counts
add up to the original count. -/
theorem split_after_spec (s : CursorSt) (pre post : List Nat)
    (hnd : (pre ++ post).Nodup)
    (hc : isChain s.heap s.head (pre ++ post) = true)
    (hcur : s.current = pre.getLast?) :
    isChain (split_after s).1.heap (split_after s).1.head pre = true
    ∧ isChain (split_after s).1.heap (split_after s).2 post = true
    ∧ pre.length + post.length = (pre ++ post).length := by
  rcases pre.eq_nil_or_concat' with rfl | ⟨L, c, rfl⟩
  · simp only [List.getLast?_nil] at hcur
    have hsp : split_after s = ({ s with head := none }, s.head) := by
      rw [split_after, hcur]
    rw [hsp]
    refine ⟨by simp [isChain, seg], ?_, by simp⟩
    rw [List.nil_append] at hc
    exact hc
  · rw [List.getLast?_concat] at hcur
    have hsp : split_after s
        = ({ s with heap := set_next s.heap c none }, next s.heap c) := by
      rw [split_after, hcur]
    obtain ⟨hA, hmid, hpost⟩ := chain_concat_decomp hc
    rw [List.nodup_append] at hnd
    obtain ⟨hndLC, hndP, hdisj⟩ := hnd
    have hcL : c ∉ L := by
      rw [List.nodup_append] at hndLC
      exact fun hm => hndLC.2.2 hm (List.mem_singleton_self c)
    have hcP : c ∉ post := fun hm =>
      hdisj (List.mem_append_right L (List.mem_singleton_self c)) hm
    rw [hsp]
    refine ⟨?_, ?_, by simp; omega⟩
    · have hbuild : isChain (set_next s.heap c none) s.head ((L ++ [c]) ++ ([] : List Nat)) = true := by
        refine chain_concat_build ?_ ?_ ?_
        · rw [seg_set_next_frame _ _ _ _ hcL]
          exact hA
        · simp [next, set_next, segFront_nil]
        · simp [seg, segFront_nil]
      simpa using hbuild
    · show seg (set_next s.heap c none) (next s.heap c) post none = true
      rw [hmid, seg_set_next_frame _ _ _ _ hcP]
      exact hpost

/-- Claim C6 witness: splitting 2 → 3 → 4 after its first element leaves
[2] in the original list and yields the new list [3, 4]. -/
theorem split_after_spec_witness :
    ([2] ++ [3, 4] : List Nat).Nodup
    ∧ isChain hW (some 2) ([2] ++ [3, 4]) = true
    ∧ (⟨hW, some 2, some 2⟩ : CursorSt).current = [2].getLast?
    ∧ (isChain (split_after ⟨hW, some 2, some 2⟩).1.heap
          (split_after ⟨hW, some 2, some 2⟩).1.head [2] = true
        ∧ isChain (split_after ⟨hW, some 2, some 2⟩).1.heap
            (split_after ⟨hW, some 2, some 2⟩).2 [3, 4] = true
        ∧ ([2] : List Nat).length + ([3, 4] : List Nat).length
            = ([2] ++ [3, 4] : List Nat).length) :=
  ⟨by decide, by decide, by decide,
    split_after_spec ⟨hW, some 2, some 2⟩ [2] [3, 4]
      (by decide) (by decide) (by decide)⟩

lemma tailFrom_spec (lo : List Nat) : ∀ (h : Heap) (hd : Nat) (fuel : Nat),
    seg h (some hd) lo none = true → lo.length ≤ fuel + 1 → lo ≠ [] →
    ∃ L2 t, lo = L2 ++ [t] ∧ tailFrom h fuel hd = some t := by
  induction lo with
  | nil => exact fun h hd fuel _ _ hne => absurd rfl hne
  | cons x xs ih =>
    intro h hd fuel hs hlen _
    simp only [seg, Bool.and_eq_true, beq_iff_eq, Option.some_inj] at hs
    obtain ⟨rfl, hrest⟩ := hs
    cases xs with
    | nil =>
      have hxnone : next h hd = none := by simpa [seg] using hrest
      refine ⟨[], hd, rfl, ?_⟩
      cases fuel with
      | zero => simp [tailFrom, hxnone]
      | succ f => simp [tailFrom, hxnone]
    | cons y ys =>
      have hxy : next h hd = some y := seg_first hrest
      cases fuel with
      | zero =>
        simp only [List.length_cons] at hlen
        omega
      | succ f =>
        have hlen2 : (y :: ys).length ≤ f + 1 := by
          simp only [List.length_cons] at hlen ⊢
          omega
        rw [hxy] at hrest
        obtain ⟨L2, t, heq, htail⟩ := ih h y f hrest hlen2 (by simp)
        refine ⟨hd :: L2, t, by rw [heq]; rfl, ?_⟩
        show (match next h hd with
          | none => some hd
          | some x2 => tailFrom h f x2) = some t
        rw [hxy]
        exact htail

/-- Claim C7: `splice_after` inserts all elements of the other list, in
order, between the current position and its successor (updating the head
when the cursor is at `Null`), leaves the cursor unmoved, and the other list
is empty afterwards. -/
theorem splice_after_spec (s : CursorSt) (oh : Option Nat)
    (pre post lo : List Nat) (fuel : Nat)
    (hnd : (pre ++ lo ++ post).Nodup)
    (hc : isChain s.heap s.head (pre ++ post) = true)
    (ho : isChain s.heap oh lo = true)
    (hcur : s.current = pre.getLast?)
    (hf : lo.length ≤ fuel) :
    ∃ s2, splice_after s oh fuel = some (s2, none)
      ∧ s2.current = s.current
      ∧ isChain s2.heap s2.head (pre ++ lo ++ post) = true := by
  rcases oh with - | hd
  · cases lo with
    | cons x xs => simp [isChain, seg] at ho
    | nil =>
      refine ⟨s, rfl, rfl, ?_⟩
      simpa using hc
  · rw [isChain] at ho
    have hne : lo ≠ [] := by
      intro hnil
      rw [hnil] at ho
      simp [seg] at ho
    obtain ⟨L2, t, rfl, htail⟩ :=
      tailFrom_spec lo s.heap hd fuel ho (le_trans hf (Nat.le_succ fuel)) hne
    have hhd : (some hd : Option Nat) = segFront (L2 ++ [t]) none := seg_first ho
    have htlo : t ∈ L2 ++ [t] := List.mem_append_right L2 (List.mem_singleton_self t)
    have hcnx := chain_cursor_next s pre post hc hcur
    cases post with
    | nil =>
      simp only [segFront_nil] at hcnx
      rcases pre.eq_nil_or_concat' with rfl | ⟨L, c, rfl⟩
      · simp only [List.getLast?_nil] at hcur
        have hsp : splice_after s (some hd) fuel
            = some ({ s with head := some hd }, none) := by
          rw [splice_after, hcnx, hcur]
        refine ⟨_, hsp, rfl, ?_⟩
        show isChain s.heap (some hd) ([] ++ (L2 ++ [t]) ++ []) = true
        rw [isChain]
        simpa using ho
      · rw [List.getLast?_concat] at hcur
        have hsp : splice_after s (some hd) fuel
            = some ({ s with heap := set_next s.heap c (some hd) }, none) := by
          rw [splice_after, hcnx, hcur]
        have hcLT : c ∉ L2 ++ [t] := by
          rw [List.append_nil, List.nodup_append] at hnd
          exact fun hm => hnd.2.2 (List.mem_append_right L (List.mem_singleton_self c)) hm
        have hcL : c ∉ L := by
          rw [List.append_nil, List.nodup_append, List.nodup_append] at hnd
          exact fun hm => hnd.1.2.2 hm (List.mem_singleton_self c)
        refine ⟨_, hsp, rfl, ?_⟩
        show isChain (set_next s.heap c (some hd)) s.head
          (((L ++ [c]) ++ (L2 ++ [t])) ++ []) = true
        rw [List.append_nil]
        obtain ⟨hA, -, -⟩ := chain_concat_decomp hc
        refine chain_concat_build ?_ ?_ ?_
        · rw [seg_set_next_frame _ _ _ _ hcL]
          exact hA
        · rw [← hhd]
          simp [next, set_next]
        · rw [← hhd]
          show seg (set_next s.heap c (some hd)) (some hd) (L2 ++ [t]) none = true
          rw [seg_set_next_frame _ _ _ _ hcLT]
          exact ho
    | cons p ps =>
      simp only [segFront_cons] at hcnx
      rcases pre.eq_nil_or_concat' with rfl | ⟨L, c, rfl⟩
      · simp only [List.getLast?_nil] at hcur
        rw [List.nil_append] at hnd
        rw [List.nodup_append] at hnd
        obtain ⟨hndLo, hndP, hdisj⟩ := hnd
        have htP : t ∉ p :: ps := fun hm => hdisj htlo hm
        have hshead : s.head = some p := by
          rw [cursorNext, hcur] at hcnx
          exact hcnx
        have hsp : splice_after s (some hd) fuel
            = some ({ s with heap := set_next s.heap t (some p), head := some hd }, none) := by
          rw [splice_after, hcnx, htail, hcur]
          rfl
        refine ⟨_, hsp, rfl, ?_⟩
        show isChain (set_next s.heap t (some p)) (some hd)
          (([] ++ (L2 ++ [t])) ++ p :: ps) = true
        rw [List.nil_append, isChain, seg_append]
        simp only [segFront_cons]
        rw [Bool.and_eq_true]
        constructor
        · exact seg_retarget (some p) hndLo ho
        · rw [seg_set_next_frame _ _ _ _ htP]
          rw [← hshead]
          rw [List.nil_append] at hc
          exact hc
      · rw [List.getLast?_concat] at hcur
        rw [List.nodup_append] at hnd
        obtain ⟨hndPL, hndPost, hdisj1⟩ := hnd
        rw [List.nodup_append] at hndPL
        obtain ⟨hndPre, hndLo, hdisj2⟩ := hndPL
        have hcpre : c ∈ L ++ [c] := List.mem_append_right L (List.mem_singleton_self c)
        have hcL : c ∉ L := by
          rw [List.nodup_append] at hndPre
          exact fun hm => hndPre.2.2 hm (List.mem_singleton_self c)
        have hcLo : c ∉ L2 ++ [t] := fun hm => hdisj2 hcpre hm
        have hct : c ≠ t := fun hce => hcLo (by rw [hce]; exact htlo)
        have htL : t ∉ L := fun hm =>
          hdisj2 (List.mem_append_left [c] hm) htlo
        have htP : t ∉ p :: ps := fun hm =>
          hdisj1 (List.mem_append_right _ htlo) hm
        have hcP : c ∉ p :: ps := fun hm =>
          hdisj1 (List.mem_append_left _ hcpre) hm
        have hsp : splice_after s (some hd) fuel
            = some ({ s with heap := set_next (set_next s.heap t (some p)) c (some hd) }, none) := by
          rw [splice_after, hcnx, htail, hcur]
          rfl
        obtain ⟨hA, -, hpost⟩ := chain_concat_decomp hc
        simp only [segFront_cons] at hpost
        refine ⟨_, hsp, rfl, ?_⟩
        show isChain (set_next (set_next s.heap t (some p)) c (some hd)) s.head
          (((L ++ [c]) ++ (L2 ++ [t])) ++ p :: ps) = true
        rw [List.append_assoc]
        refine chain_concat_build ?_ ?_ ?_
        · rw [seg_set_next_frame _ _ _ _ hcL, seg_set_next_frame _ _ _ _ htL]
          exact hA
        · have hfr : segFront ((L2 ++ [t]) ++ p :: ps) none = some hd := by
            rw [segFront_append]
            rw [segFront_ne (by simp) _ none]
            exact hhd.symm
          rw [hfr]
          simp [next, set_next, hct]
        · have hfr : segFront ((L2 ++ [t]) ++ p :: ps) none = some hd := by
            rw [segFront_append]
            rw [segFront_ne (by simp) _ none]
            exact hhd.symm
          rw [hfr, seg_append]
          simp only [segFront_cons]
          rw [Bool.and_eq_true]
          constructor
          · rw [seg_set_next_frame _ _ _ _ hcLo]
            exact seg_retarget (some p) hndLo ho
          · rw [seg_set_next_frame _ _ _ _ hcP, seg_set_next_frame _ _ _ _ htP]
            exact hpost

/-- Claim C7 witness: splicing the list 5 → 6 after the first element of
2 → 3 yields the chain 2 → 5 → 6 → 3 and empties the other list. -/
theorem splice_after_spec_witness :
    ([2] ++ [5, 6] ++ [3] : List Nat).Nodup
    ∧ isChain hW2 (some 2) ([2] ++ [3]) = true
    ∧ isChain hW2 (some 5) [5, 6] = true
    ∧ (⟨hW2, some 2, some 2⟩ : CursorSt).current = [2].getLast?
    ∧ ([5, 6] : List Nat).length ≤ 2
    ∧ (∃ s2, splice_after ⟨hW2, some 2, some 2⟩ (some 5) 2 = some (s2, none)
        ∧ s2.current = (⟨hW2, some 2, some 2⟩ : CursorSt).current
        ∧ isChain s2.heap s2.head ([2] ++ [5, 6] ++ [3]) = true) :=
  ⟨by decide, by decide, by decide, by decide, by decide,
    splice_after_spec ⟨hW2, some 2, some 2⟩ (some 5) [2] [3] [5, 6] 2
      (by decide) (by decide) (by decide) (by decide) (by decide)⟩

lemma clearLoop_spec (l : List Nat) : ∀ (h : Heap) (hd : Option Nat) (fuel : Nat),
    l.Nodup → isChain h hd l = true → l.length ≤ fuel →
    ∃ h2, clearLoop h fuel hd = some h2
      ∧ ∀ y, h2 y = if y ∈ l then UNLINKED_MARKER else h y := by
  induction l with
  | nil =>
    intro h hd fuel _ hc _
    have hhd : hd = none := by simpa [isChain, seg] using hc
    subst hhd
    exact ⟨h, by cases fuel <;> rfl, fun y => by simp⟩
  | cons x xs ih =>
    intro h hd fuel hnd hc hlen
    rw [isChain] at hc
    simp only [seg, Bool.and_eq_true, beq_iff_eq, Option.some_inj] at hc
    obtain ⟨rfl, hrest⟩ := hc
    rw [List.nodup_cons] at hnd
    obtain ⟨hx, hndxs⟩ := hnd
    cases fuel with
    | zero =>
      simp only [List.length_cons] at hlen
      omega
    | succ f =>
      have hchain : isChain (mark_unlinked h x) (next h x) xs = true := by
        rw [isChain, mark_unlinked, seg_set_next_frame _ _ _ _ hx]
        exact hrest
      have hlen2 : xs.length ≤ f := by
        simp only [List.length_cons] at hlen
        omega
      obtain ⟨h2, hloop, hvals⟩ := ih (mark_unlinked h x) (next h x) f hndxs hchain hlen2
      refine ⟨h2, ?_, ?_⟩
      · show clearLoop (mark_unlinked h x) f (next h x) = some h2
        exact hloop
      · intro y
        rw [hvals y]
        by_cases hyx : y ∈ xs
        · simp [hyx, List.mem_cons]
        · by_cases hyx2 : y = x
          · subst hyx2
            simp [hyx, mark_unlinked, set_next]
          · simp [hyx, hyx2, mark_unlinked, set_next, List.mem_cons]

lemma chain_linked (l : List Nat) : ∀ (h : Heap) (hd : Option Nat),
    (1 : Nat) ∉ l → isChain h hd l = true → ∀ x ∈ l, is_linked h x = true := by
  induction l with
  | nil => exact fun h hd _ _ x hx => absurd hx (List.not_mem_nil x)
  | cons y ys ih =>
    intro h hd h1 hc x hx
    rw [isChain] at hc
    simp only [seg, Bool.and_eq_true, beq_iff_eq] at hc
    obtain ⟨-, hrest⟩ := hc
    rcases List.mem_cons.mp hx with rfl | hxs
    · have hfr : next h x = segFront ys none := seg_first hrest
      rw [is_linked, show h x = segFront ys none from hfr]
      cases ys with
      | nil => simp [segFront_nil, UNLINKED_MARKER]
      | cons z zs =>
        have hz1 : z ≠ 1 := by
          intro hze
          rw [← hze] at h1
          exact h1 (List.mem_cons_of_mem x (List.mem_cons_self z zs))
        simp [segFront_cons, UNLINKED_MARKER, hz1]
    · exact ih h (next h y) (fun hm => h1 (List.mem_cons_of_mem y hm))
        (by rw [isChain]; exact hrest) x hxs

/-- Claim C8: `clear` empties the list and leaves every previously-linked
member link reporting unlinked, whereas `fast_clear` empties the list
(`is_empty` becomes true) but every previously-linked member link still
reports linked until reset via the `force_unlink` escape hatch. -/
theorem clear_fast_clear_spec (h : Heap) (hd : Option Nat) (l : List Nat)
    (fuel : Nat) (hnd : l.Nodup) (h1 : (1 : Nat) ∉ l)
    (hc : isChain h hd l = true) (hf : l.length ≤ fuel) :
    (∃ h2, clear h hd fuel = some (h2, none)
        ∧ ∀ x ∈ l, is_linked h2 x = false)
    ∧ (is_empty (fast_clear h hd).2 = true
        ∧ ∀ x ∈ l, is_linked (fast_clear h hd).1 x = true)
    ∧ (∀ x, is_linked (force_unlink h x) x = false) := by
  refine ⟨?_, ⟨rfl, ?_⟩, ?_⟩
  · obtain ⟨h2, hloop, hvals⟩ := clearLoop_spec l h hd fuel hnd hc hf
    refine ⟨h2, ?_, ?_⟩
    · rw [clear, hloop]
      rfl
    · intro x hx
      rw [is_linked, hvals x]
      simp [hx]
  · exact fun x hx => chain_linked l h hd h1 hc x hx
  · intro x
    simp [is_linked, force_unlink, set_next]

/-- Claim C8 witness: clearing the chain 2 → 3 → 4 unlinks all three
members, while a fast clear leaves them reporting linked. -/
theorem clear_fast_clear_spec_witness :
    ([2, 3, 4] : List Nat).Nodup
    ∧ (1 : Nat) ∉ ([2, 3, 4] : List Nat)
    ∧ isChain hW (some 2) [2, 3, 4] = true
    ∧ ([2, 3, 4] : List Nat).length ≤ 3
    ∧ ((∃ h2, clear hW (some 2) 3 = some (h2, none)
          ∧ ∀ x ∈ ([2, 3, 4] : List Nat), is_linked h2 x = false)
        ∧ (is_empty (fast_clear hW (some 2)).2 = true
            ∧ ∀ x ∈ ([2, 3, 4] : List Nat),
                is_linked (fast_clear hW (some 2)).1 x = true)
        ∧ (∀ x, is_linked (force_unlink hW x) x = false)) :=
  ⟨by decide, by decide, by decide, by decide,
    clear_fast_clear_spec hW (some 2) [2, 3, 4] 3
      (by decide) (by decide) (by decide) (by decide)⟩

end IntrusiveSLL
